import Mathlib

/-!
Verification of the fracture pipeline of `src/fracture.ts`.

The host-side code of the repository is shallowly embedded here:
GPU `Float32Array` / `Int32Array` buffers become `List ℚ` / `List Int`
(float values are modelled as exact rationals; the claims under study are
structural copy/order/bookkeeping properties and exact-arithmetic bound
computations), and the imperative loops become structural recursions that
process the arrays in the same element order as the source.

JavaScript array-indexing semantics that matter for fidelity:
* `arr[idx] = v` with `idx ≥ 0` sets `arr.length` to at least `idx + 1`;
  with `idx < 0` it stores a non-index property, which a
  `for (i = 0; i < arr.length; i++)` loop never visits.
* reading a hole (or a negative index never written) yields `undefined`,
  which the source code tests with `if (!c)` / `if (!f)`.
Sparse JS arrays are therefore embedded as a pair of a total map
`Int → Option _` (or `Int → List _` with `[]` for "absent") and the
tracked `length`.
-/

namespace Fracture

/-- A 3-d point, the host-side `OM.vec3` of `ourmath.ts`. -/
structure Vec3 where
  x : ℚ
  y : ℚ
  z : ℚ
deriving DecidableEq

/-- Modelled from the spec: `OM.add3` of `ourmath.ts` (not under `src/`),
componentwise vector addition. -/
def add3 (a b : Vec3) : Vec3 := ⟨a.x + b.x, a.y + b.y, a.z + b.z⟩

/-- Modelled from the spec: `OM.sub3` of `ourmath.ts` (not under `src/`),
componentwise vector subtraction. -/
def sub3 (a b : Vec3) : Vec3 := ⟨a.x - b.x, a.y - b.y, a.z - b.z⟩

/-- Modelled from the spec: `OM.mult3c` of `ourmath.ts` (not under `src/`),
scaling of a vector by a scalar. -/
def mult3c (a : Vec3) (c : ℚ) : Vec3 := ⟨a.x * c, a.y * c, a.z * c⟩

/-- Modelled from the spec: `OM.compwise` of `ourmath.ts` (not under `src/`),
componentwise application of a binary scalar function. -/
def compwise (f : ℚ → ℚ → ℚ) (a b : Vec3) : Vec3 := ⟨f a.x b.x, f a.y b.y, f a.z b.z⟩

/-- Componentwise order on points. -/
def le3 (a b : Vec3) : Prop := a.x ≤ b.x ∧ a.y ≤ b.y ∧ a.z ≤ b.z

instance (a b : Vec3) : Decidable (le3 a b) := by unfold le3; infer_instance

theorem le3_refl (a : Vec3) : le3 a a := ⟨le_refl _, le_refl _, le_refl _⟩

theorem le3_trans {a b c : Vec3} (h1 : le3 a b) (h2 : le3 b c) : le3 a c :=
  ⟨h1.1.trans h2.1, h1.2.1.trans h2.2.1, h1.2.2.trans h2.2.2⟩

/-! ## Host Compactor: `floatNcompact` (src/fracture.ts lines 632-644)

```ts
function floatNcompact(N: number, index: Int32Array, val: Float32Array) {
  const indices = [];
  const values = [];
  for (let i = 0; i < index.length; i++) {
    if (index[i] != -1) {
      indices.push(index[i]);
      for (let n = 0; n < N; n++) {
        values.push(val[i * N + n]);
      }
    }
  }
  return { indices: indices, values: values };
}
```

Embedded as a structural recursion over `index` that carries the running
loop counter `i`; pushes of the JS loop become list concatenation in the
same order. Out-of-range reads (`val[k]` beyond the array, `undefined` in
JS) are modelled with `List.getD _ 0`; all call sites in `outputToInput`
read `val` arrays of length exactly `N * index.length`. -/

def floatNcompactAux (N : Nat) (val : List ℚ) : Nat → List Int → List Int × List ℚ
  | _, [] => ([], [])
  | i, t :: rest =>
    let r := floatNcompactAux N val (i + 1) rest
    if t ≠ -1 then
      (t :: r.1, ((List.range N).map (fun n => val.getD (i * N + n) 0)) ++ r.2)
    else r

/-- The Host Compactor `floatNcompact` of src/fracture.ts. -/
def floatNcompact (N : Nat) (index : List Int) (val : List ℚ) : List Int × List ℚ :=
  floatNcompactAux N val 0 index

theorem floatNcompactAux_indices (N : Nat) (val : List ℚ) :
    ∀ (l : List Int) (i : Nat),
      (floatNcompactAux N val i l).1 = l.filter (fun t => t ≠ -1) := by
  intro l
  induction l with
  | nil => intro i; rfl
  | cons t rest ih =>
    intro i
    by_cases h : t ≠ -1
    · simp only [floatNcompactAux, if_pos h, ih, List.filter_cons]
      simp [h]
    · simp only [floatNcompactAux, if_neg h, ih, List.filter_cons]
      simp [h]

theorem floatNcompactAux_values (N : Nat) (val : List ℚ) :
    ∀ (l : List Int) (i : Nat),
      (floatNcompactAux N val i l).2 =
        ((List.enumFrom i l).filter (fun p => p.2 ≠ -1)).flatMap
          (fun p => (List.range N).map (fun n => val.getD (p.1 * N + n) 0)) := by
  intro l
  induction l with
  | nil => intro i; rfl
  | cons t rest ih =>
    intro i
    by_cases h : t ≠ -1
    · simp only [floatNcompactAux, if_pos h, ih, List.enumFrom, List.filter_cons]
      simp [h]
    · simp only [floatNcompactAux, if_neg h, ih, List.enumFrom, List.filter_cons]
      simp [h]

/-- Reading `N` consecutive entries starting at `s` out of a list that is long
enough is the slice `(val.drop s).take N`. -/
theorem getD_range_eq_slice (val : List ℚ) (N s : Nat) (h : s + N ≤ val.length) :
    (List.range N).map (fun n => val.getD (s + n) 0) = (val.drop s).take N := by
  apply List.ext_getElem
  · simp [List.length_take, List.length_drop]
    omega
  · intro k hk1 hk2
    simp only [List.getElem_map, List.getElem_range]
    simp only [List.length_map, List.length_range] at hk1
    rw [List.getElem_take, List.getElem_drop, List.getD_eq_getElem]

/-! ## Face Sealer: `makeFace` (src/fracture.ts lines 646-683)

```ts
function makeFace(indices: number[], points: number[]) {
  const faces: OM.vec3[][][] = [];
  for (let i = 0; i < indices.length; i++) {
    const idx = indices[i];
    let f = faces[idx];
    if (!f) { f = faces[idx] = []; }
    const p1: OM.vec3 = [points[i*8+0], points[i*8+1], points[i*8+2]];
    const p2: OM.vec3 = [points[i*8+4], points[i*8+5], points[i*8+6]];
    f.push([p1, p2]);
  }
  const idxout: number[] = [];
  const values = [];
  for (let iface = 0; iface < faces.length; iface++) {
    const f = faces[iface];
    if (!f) { continue; }
    let centr: OM.vec3 = [0, 0, 0];
    for (let j = 0; j < f.length; j++) {
      centr = OM.add3(centr, OM.add3(f[j][0], f[j][1]));
    }
    centr = OM.mult3c(centr, 0.5 / f.length);
    for (let i = 0; i < f.length; i++) {
      idxout.push(iface);
      values.push(...centr, ...f[i][0], ...f[i][1]);
    }
  }
  return { indices: idxout, values: values };
}
```

The sparse JS `faces` array is embedded as a total map `Int → List _`
(`[]` for never-assigned, matching `if (!f) continue` because every
assigned group is nonempty) together with the JS `length`, which only
nonnegative assigned indices raise. -/

/-- The cut-edge fragment read for loop index `i`: two points at float
offsets `i*8+0..2` and `i*8+4..6` (the fourth float of each vec4 is pad). -/
def fragAt (points : List ℚ) (i : Nat) : Vec3 × Vec3 :=
  (⟨points.getD (i * 8) 0, points.getD (i * 8 + 1) 0, points.getD (i * 8 + 2) 0⟩,
   ⟨points.getD (i * 8 + 4) 0, points.getD (i * 8 + 5) 0, points.getD (i * 8 + 6) 0⟩)

/-- The first loop's reads: the id and point pair handled at each index. -/
def makeFaceFrags (indices : List Int) (points : List ℚ) : List (Int × (Vec3 × Vec3)) :=
  indices.enum.map (fun p => (p.2, fragAt points p.1))

/-- The first loop of `makeFace`: group the fragments into the sparse JS
array `faces` (as a total map plus the JS array `length`). -/
def buildFaces : List (Int × (Vec3 × Vec3)) → (Int → List (Vec3 × Vec3)) × Nat
  | [] => (fun _ => [], 0)
  | (idx, pq) :: rest =>
    let r := buildFaces rest
    (fun j => if j = idx then pq :: r.1 j else r.1 j,
     if 0 ≤ idx then Nat.max r.2 (idx.toNat + 1) else r.2)

/-- The centroid loop of `makeFace`: sum all endpoints of the group, then
scale by `0.5 / f.length`. -/
def faceCentroid (f : List (Vec3 × Vec3)) : Vec3 :=
  mult3c (f.foldl (fun c pq => add3 c (add3 pq.1 pq.2)) ⟨0, 0, 0⟩) ((1 / 2) / (f.length : ℚ))

/-- A vec3 spread into the flat float stream, as in `values.push(...centr, ...)`. -/
def vecList (v : Vec3) : List ℚ := [v.x, v.y, v.z]

/-- The `faces[iface]` lookup of the second `makeFace` loop. -/
def facesAt (indices : List Int) (points : List ℚ) (iface : Nat) : List (Vec3 × Vec3) :=
  (buildFaces (makeFaceFrags indices points)).1 (Int.ofNat iface)

/-- The second loop of `makeFace`: one `(iface, 9 floats)` output entry per
fragment of each nonempty group, all of a group sharing its centroid. -/
def makeFaceEntries (indices : List Int) (points : List ℚ) : List (Int × List ℚ) :=
  (List.range (buildFaces (makeFaceFrags indices points)).2).flatMap (fun iface =>
    if (facesAt indices points iface).length = 0 then []
    else (facesAt indices points iface).map (fun pq =>
      ((Int.ofNat iface : Int),
        vecList (faceCentroid (facesAt indices points iface)) ++
          vecList pq.1 ++ vecList pq.2)))

/-- The Face Sealer `makeFace` of src/fracture.ts: the flat
`{ indices, values }` pair produced by the two pushes of the second loop. -/
def makeFace (indices : List Int) (points : List ℚ) : List Int × List ℚ :=
  ((makeFaceEntries indices points).map Prod.fst,
   (makeFaceEntries indices points).flatMap Prod.snd)

theorem buildFaces_apply (j : Int) :
    ∀ fs : List (Int × (Vec3 × Vec3)),
      (buildFaces fs).1 j = (fs.filter (fun e => e.1 = j)).map Prod.snd := by
  intro fs
  induction fs with
  | nil => rfl
  | cons e rest ih =>
    obtain ⟨idx, pq⟩ := e
    by_cases h : j = idx
    · subst h
      simp only [buildFaces, if_pos rfl, ih, List.filter_cons]
      simp
    · simp only [buildFaces, if_neg h, ih, List.filter_cons]
      have : ¬ (idx = j) := fun hh => h hh.symm
      simp [this]

theorem buildFaces_len_bound :
    ∀ (fs : List (Int × (Vec3 × Vec3))) (e : Int × (Vec3 × Vec3)),
      e ∈ fs → 0 ≤ e.1 → e.1.toNat < (buildFaces fs).2 := by
  intro fs
  induction fs with
  | nil => intro e he; exact absurd he (List.not_mem_nil e)
  | cons a rest ih =>
    intro e he hnn
    obtain ⟨idx, pq⟩ := a
    rcases List.mem_cons.mp he with h | h
    · subst h
      simp only [buildFaces, if_pos hnn]
      exact Nat.lt_of_lt_of_le (Nat.lt_succ_self _) (Nat.le_max_right _ _)
    · have hrec := ih e h hnn
      simp only [buildFaces]
      by_cases h0 : (0 : Int) ≤ idx
      · simp only [if_pos h0]
        exact Nat.lt_of_lt_of_le hrec (Nat.le_max_left _ _)
      · simp only [if_neg h0]; exact hrec

/-- `flatMap` over `range n` of a function empty away from `g`. -/
theorem flatMap_range_single {α : Type} (f : Nat → List α) (g n : Nat)
    (h : ∀ a, a < n → a ≠ g → f a = []) :
    (List.range n).flatMap f = if g < n then f g else [] := by
  induction n with
  | zero => simp
  | succ m ih =>
    rw [List.range_succ, List.flatMap_append]
    by_cases hg : g < m
    · rw [ih (fun a ha hne => h a (Nat.lt_succ_of_lt ha) hne), if_pos hg,
        if_pos (Nat.lt_succ_of_lt hg)]
      have : m ≠ g := by omega
      simp [h m (Nat.lt_succ_self m) this]
    · rw [ih (fun a ha hne => h a (Nat.lt_succ_of_lt ha) hne), if_neg hg]
      by_cases hgm : g = m
      · subst hgm; simp
      · have : g ≥ m + 1 := by omega
        rw [if_neg (by omega)]
        have : m ≠ g := by omega
        simp [h m (Nat.lt_succ_self m) this]

theorem filter_flatMap {α β : Type} (l : List α) (f : α → List β) (p : β → Bool) :
    (l.flatMap f).filter p = l.flatMap (fun a => (f a).filter p) := by
  induction l with
  | nil => rfl
  | cons a rest ih => simp [List.flatMap_cons, List.filter_append, ih]

/-- Each output entry of the Face Sealer carries a nonnegative face id. -/
theorem makeFaceEntries_fst_nonneg (indices : List Int) (points : List ℚ) :
    ∀ e ∈ makeFaceEntries indices points, 0 ≤ e.1 := by
  intro e he
  unfold makeFaceEntries at he
  rcases List.mem_flatMap.mp he with ⟨iface, _, hmem⟩
  by_cases h : (facesAt indices points iface).length = 0
  · rw [if_pos h] at hmem
    exact absurd hmem (List.not_mem_nil e)
  · rw [if_neg h] at hmem
    rcases List.mem_map.mp hmem with ⟨pq, _, hpq⟩
    rw [← hpq]
    exact Int.ofNat_nonneg iface

/-! ## Host compaction step: `outputToInput` (src/fracture.ts lines 548-578)

After the four readbacks (`arrtrioutcells : i32[2n]`, `arrtriout : f32[24n]`,
`arrnewoutcells : i32[n]`, `arrnewout : f32[8n]` for `oldtricount = n`):

```ts
let { indices: tricells, values: tris } = floatNcompact(12, arrtrioutcells, arrtriout);
const { indices: newcells, values: news } = floatNcompact(8, arrnewoutcells, arrnewout);
{
  const { indices, values } = makeFace(newcells, news);
  tricells = tricells.concat(indices);
  tris = tris.concat(values);
}
this.arrtricells = new Int32Array(tricells);
this.arrtris = new Float32Array(tris);
```
-/

/-- The pure combine performed by `outputToInput` on the read-back arrays:
the resulting `(arrtricells, arrtris)` pair. -/
def outputToInput (arrtrioutcells : List Int) (arrtriout : List ℚ)
    (arrnewoutcells : List Int) (arrnewout : List ℚ) : List Int × List ℚ :=
  let c12 := floatNcompact 12 arrtrioutcells arrtriout
  let c8 := floatNcompact 8 arrnewoutcells arrnewout
  let mf := makeFace c8.1 c8.2
  (c12.1 ++ mf.1, c12.2 ++ mf.2)

/-! ## Per-Plane Replicator host side (src/fracture.ts lines 316-369, 371-377)

`transform` packs the mesh's `3`-float positions into vec4s:
`vertsAsFloat4.length = (origPositions.length / 3) * 4`.
`doTransformCopyPerPlane` then computes
`const tricount = this.arrtris.length / 4;` and returns
`tricount * kFracturePattern.cellCount`, which `doFracture` uses as the
triangle count of the replicated set. -/

/-- Length of `vertsAsFloat4` built by `transform` from `origPositions`. -/
def vertsAsFloat4Length (origPositionsLength : Nat) : Nat :=
  (origPositionsLength / 3) * 4

/-- The count returned by `doTransformCopyPerPlane`, computed from
`arrtris.length / 4` (the number of vec4 records, i.e. vertices). -/
def doTransformCopyPerPlaneCount (arrtrisLength cellCount : Nat) : Nat :=
  (arrtrisLength / 4) * cellCount

/-! ## Classifier/Clipper dispatch buffers (src/fracture.ts lines 442-516)

`dispatchFracture(iteration, tricount)` allocates, in bytes:
```ts
buftrioutcells : tricount * 2 * 4
buftriout      : tricount * 2 * 12 * 4
bufnewoutcells : tricount * 4
bufnewout      : tricount * 2 * 4 * 4
```
-/

/-- Byte size of `buftrioutcells` (survivor tags). -/
def buftrioutcellsSize (tricount : Nat) : Nat := tricount * 2 * 4

/-- Byte size of `buftriout` (survivor triangle records). -/
def buftrioutSize (tricount : Nat) : Nat := tricount * 2 * 12 * 4

/-- Byte size of `bufnewoutcells` (cut-edge fragment tags). -/
def bufnewoutcellsSize (tricount : Nat) : Nat := tricount * 4

/-- Byte size of `bufnewout` (cut-edge fragment points). -/
def bufnewoutSize (tricount : Nat) : Nat := tricount * 2 * 4 * 4

/-- The survivor tag array `outputToInput` reads back from `buftrioutcells`
after one dispatch: `dispatchFracture` creates the buffer with
`device.createBuffer` (WebGPU zero-initializes buffer contents) and the
staged `fracture` WGSL entry point (src/fracture.ts lines 46-56) only does
`_ = ...` discards and writes nothing, so all `tricount * 2` i32 slots read
back as `0`. -/
def stagedTriTagsReadback (tricount : Nat) : List Int :=
  List.replicate (tricount * 2) 0

/-- The cut-edge tag array read back from `bufnewoutcells` after one
dispatch: zero-initialized and never written by the staged stub shader, so
all `tricount` i32 slots read back as `0`. -/
def stagedFragTagsReadback (tricount : Nat) : List Int :=
  List.replicate tricount 0

/-! ## Fragment Assembler: the "collect" and "recenter" phases of
`doFracture` (src/fracture.ts lines 392-439)

```ts
const cellfaces: CellFace[] = [];
for (let i = 0; i < this.arrtricells.length; i++) {
  const idx = this.arrtricells[i] + 2; // so that -2 becomes a valid cell
  let c = cellfaces[idx];
  if (!c) {
    c = cellfaces[idx] = {
      points: [], faces: [], min: [10000, 10000, 10000], max: [-10000, -10000, -10000],
    };
  }
  for (let v = 0; v < 3; v++) {
    const off = i * 12 + v * 4;
    const p: OM.vec3 = [this.arrtris[off + 0], this.arrtris[off + 1], this.arrtris[off + 2]];
    c.points.push(p);
    c.min = OM.compwise(Math.min, c.min, p);
    c.max = OM.compwise(Math.max, c.max, p);
  }
  const ci = c.faces.length * 3;
  c.faces.push([ci, ci + 1, ci + 2]);
}
// "recenter"
for (let i = 0; i < cellfaces.length; i++) {
  const c = cellfaces[i];
  if (!c) { continue; }
  c.position = OM.mult3c(OM.add3(c.min, c.max), 0.5);
  c.size = OM.sub3(c.max, c.min);
  for (let j = 0; j < c.points.length; j++) {
    c.points[j] = OM.sub3(c.points[j], c.position);
  }
}
return cellfaces;
```
-/

/-- The per-bucket record built by the collect loop (`CellFace` in the
source; `position` and `size` are filled in only by the recenter loop). -/
structure CellFace where
  points : List Vec3
  faces : List (Nat × Nat × Nat)
  min : Vec3
  max : Vec3
  position : Option Vec3
  size : Option Vec3
deriving DecidableEq

/-- The object literal a bucket starts from. -/
def freshCell : CellFace :=
  ⟨[], [], ⟨10000, 10000, 10000⟩, ⟨-10000, -10000, -10000⟩, none, none⟩

/-- The three vertices of triangle record `i`, read at float offsets
`i*12 + v*4 + (0,1,2)` for `v = 0,1,2`. -/
def triPoints (tris : List ℚ) (i : Nat) : List Vec3 :=
  (List.range 3).map (fun v =>
    ⟨tris.getD (i * 12 + v * 4) 0, tris.getD (i * 12 + v * 4 + 1) 0,
      tris.getD (i * 12 + v * 4 + 2) 0⟩)

/-- One iteration of the collect loop body on the bucket it hit: push the
triangle's three points, update the running min/max, append a face triple. -/
def addTri (c : CellFace) (ps : List Vec3) : CellFace :=
  { c with
    points := c.points ++ ps
    min := ps.foldl (compwise Min.min) c.min
    max := ps.foldl (compwise Max.max) c.max
    faces := c.faces ++ [(c.faces.length * 3, c.faces.length * 3 + 1, c.faces.length * 3 + 2)] }

/-- The collect loop over `arrtricells`, with the sparse JS `cellfaces`
array embedded as a map plus its JS `length`. -/
def collectAux (tris : List ℚ) : Nat → List Int → ((Int → Option CellFace) × Nat) →
    ((Int → Option CellFace) × Nat)
  | _, [], acc => acc
  | i, t :: rest, acc =>
    let idx := t + 2
    let c := (acc.1 idx).getD freshCell
    let c2 := addTri c (triPoints tris i)
    collectAux tris (i + 1) rest
      (fun j => if j = idx then some c2 else acc.1 j,
       if 0 ≤ idx then Nat.max acc.2 (idx.toNat + 1) else acc.2)

/-- The whole collect phase. -/
def collect (tricells : List Int) (tris : List ℚ) : (Int → Option CellFace) × Nat :=
  collectAux tris 0 tricells (fun _ => none, 0)

/-- The recenter loop body for one bucket. -/
def recenterFace (c : CellFace) : CellFace :=
  let position := mult3c (add3 c.min c.max) (1 / 2)
  { c with
    position := some position
    size := some (sub3 c.max c.min)
    points := c.points.map (fun p => sub3 p position) }

/-- The `cellfaces` array returned by `doFracture` (collect then recenter):
entry `j` of the array is `none` exactly for the holes the source skips
with `if (!c) continue` / `if (fr)`. -/
def doFractureAssemble (tricells : List Int) (tris : List ℚ) : List (Option CellFace) :=
  let r := collect tricells tris
  (List.range r.2).map (fun j => (r.1 (Int.ofNat j)).map recenterFace)

/-! ### Fold lemmas for the running bounds -/

theorem foldl_min_le_init (l : List ℚ) (a : ℚ) : l.foldl Min.min a ≤ a := by
  induction l generalizing a with
  | nil => exact le_refl a
  | cons b rest ih => exact (ih (min a b)).trans (min_le_left a b)

theorem foldl_min_le_mem (l : List ℚ) (a b : ℚ) : b ∈ l → l.foldl Min.min a ≤ b := by
  induction l generalizing a with
  | nil => intro hb; exact absurd hb (List.not_mem_nil b)
  | cons c rest ih =>
    intro hb
    rcases List.mem_cons.mp hb with h | h
    · subst h
      exact (foldl_min_le_init rest (min a b)).trans (min_le_right a b)
    · exact ih (min a c) h

theorem foldl_min_choice (l : List ℚ) (a : ℚ) :
    l.foldl Min.min a = a ∨ l.foldl Min.min a ∈ l := by
  induction l generalizing a with
  | nil => exact Or.inl rfl
  | cons b rest ih =>
    rcases ih (min a b) with h | h
    · rcases min_choice a b with hc | hc
      · exact Or.inl (by rw [List.foldl_cons, h, hc])
      · exact Or.inr (by rw [List.foldl_cons, h, hc]; exact List.mem_cons_self b rest)
    · exact Or.inr (List.mem_cons_of_mem b h)

theorem foldl_max_init_le (l : List ℚ) (a : ℚ) : a ≤ l.foldl Max.max a := by
  induction l generalizing a with
  | nil => exact le_refl a
  | cons b rest ih => exact (le_max_left a b).trans (ih (max a b))

theorem foldl_max_mem_le (l : List ℚ) (a b : ℚ) : b ∈ l → b ≤ l.foldl Max.max a := by
  induction l generalizing a with
  | nil => intro hb; exact absurd hb (List.not_mem_nil b)
  | cons c rest ih =>
    intro hb
    rcases List.mem_cons.mp hb with h | h
    · subst h
      exact (le_max_right a b).trans (foldl_max_init_le rest (max a b))
    · exact ih (max a c) h

theorem foldl_max_choice (l : List ℚ) (a : ℚ) :
    l.foldl Max.max a = a ∨ l.foldl Max.max a ∈ l := by
  induction l generalizing a with
  | nil => exact Or.inl rfl
  | cons b rest ih =>
    rcases ih (max a b) with h | h
    · rcases max_choice a b with hc | hc
      · exact Or.inl (by rw [List.foldl_cons, h, hc])
      · exact Or.inr (by rw [List.foldl_cons, h, hc]; exact List.mem_cons_self b rest)
    · exact Or.inr (List.mem_cons_of_mem b h)

theorem foldl_compwise_x (f : ℚ → ℚ → ℚ) (ps : List Vec3) (s : Vec3) :
    (ps.foldl (compwise f) s).x = (ps.map Vec3.x).foldl f s.x := by
  induction ps generalizing s with
  | nil => rfl
  | cons p rest ih => simp [List.foldl_cons, ih, compwise]

theorem foldl_compwise_y (f : ℚ → ℚ → ℚ) (ps : List Vec3) (s : Vec3) :
    (ps.foldl (compwise f) s).y = (ps.map Vec3.y).foldl f s.y := by
  induction ps generalizing s with
  | nil => rfl
  | cons p rest ih => simp [List.foldl_cons, ih, compwise]

theorem foldl_compwise_z (f : ℚ → ℚ → ℚ) (ps : List Vec3) (s : Vec3) :
    (ps.foldl (compwise f) s).z = (ps.map Vec3.z).foldl f s.z := by
  induction ps generalizing s with
  | nil => rfl
  | cons p rest ih => simp [List.foldl_cons, ih, compwise]

theorem foldl_vmin_le_init (ps : List Vec3) (s : Vec3) :
    le3 (ps.foldl (compwise Min.min) s) s :=
  ⟨by rw [foldl_compwise_x]; exact foldl_min_le_init _ _,
   by rw [foldl_compwise_y]; exact foldl_min_le_init _ _,
   by rw [foldl_compwise_z]; exact foldl_min_le_init _ _⟩

theorem foldl_vmin_le_mem (ps : List Vec3) (s p : Vec3) (hp : p ∈ ps) :
    le3 (ps.foldl (compwise Min.min) s) p :=
  ⟨by rw [foldl_compwise_x]; exact foldl_min_le_mem _ _ _ (List.mem_map_of_mem _ hp),
   by rw [foldl_compwise_y]; exact foldl_min_le_mem _ _ _ (List.mem_map_of_mem _ hp),
   by rw [foldl_compwise_z]; exact foldl_min_le_mem _ _ _ (List.mem_map_of_mem _ hp)⟩

theorem foldl_vmax_init_le (ps : List Vec3) (s : Vec3) :
    le3 s (ps.foldl (compwise Max.max) s) :=
  ⟨by rw [foldl_compwise_x]; exact foldl_max_init_le _ _,
   by rw [foldl_compwise_y]; exact foldl_max_init_le _ _,
   by rw [foldl_compwise_z]; exact foldl_max_init_le _ _⟩

theorem foldl_vmax_mem_le (ps : List Vec3) (s p : Vec3) (hp : p ∈ ps) :
    le3 p (ps.foldl (compwise Max.max) s) :=
  ⟨by rw [foldl_compwise_x]; exact foldl_max_mem_le _ _ _ (List.mem_map_of_mem _ hp),
   by rw [foldl_compwise_y]; exact foldl_max_mem_le _ _ _ (List.mem_map_of_mem _ hp),
   by rw [foldl_compwise_z]; exact foldl_max_mem_le _ _ _ (List.mem_map_of_mem _ hp)⟩

/-! ### The running-bounds invariant of collect buckets -/

/-- What the collect loop maintains for every bucket it has touched: the
running `min`/`max` bound every collected point, each bound component is
either still its seed (`10000` resp. `-10000`) or attained by a collected
point, and each bound component is on the seed's side of the seed value. -/
def PreGood (c : CellFace) : Prop :=
  (∀ p ∈ c.points, le3 c.min p ∧ le3 p c.max) ∧
  ((c.min.x = 10000 ∨ c.min.x ∈ c.points.map Vec3.x) ∧
   (c.min.y = 10000 ∨ c.min.y ∈ c.points.map Vec3.y) ∧
   (c.min.z = 10000 ∨ c.min.z ∈ c.points.map Vec3.z)) ∧
  ((c.max.x = -10000 ∨ c.max.x ∈ c.points.map Vec3.x) ∧
   (c.max.y = -10000 ∨ c.max.y ∈ c.points.map Vec3.y) ∧
   (c.max.z = -10000 ∨ c.max.z ∈ c.points.map Vec3.z)) ∧
  (c.min.x ≤ 10000 ∧ c.min.y ≤ 10000 ∧ c.min.z ≤ 10000) ∧
  (-10000 ≤ c.max.x ∧ -10000 ≤ c.max.y ∧ -10000 ≤ c.max.z)

/-- `PreGood` plus nonemptiness: every bucket of the finished collect loop
received at least one triangle, hence at least three points. -/
def GoodFace (c : CellFace) : Prop := PreGood c ∧ c.points ≠ []

theorem freshCell_pregood : PreGood freshCell := by
  refine ⟨?_, ?_, ?_, ?_, ?_⟩ <;> simp [freshCell]

theorem addTri_pregood (c : CellFace) (ps : List Vec3) (h : PreGood c) :
    PreGood (addTri c ps) := by
  obtain ⟨hb, ⟨hmx, hmy, hmz⟩, ⟨hMx, hMy, hMz⟩, hsb, hSB⟩ := h
  have hpts : (addTri c ps).points = c.points ++ ps := rfl
  have hmin : (addTri c ps).min = ps.foldl (compwise Min.min) c.min := rfl
  have hmax : (addTri c ps).max = ps.foldl (compwise Max.max) c.max := rfl
  refine ⟨?_, ?_, ?_, ?_, ?_⟩
  · intro p hp
    rw [hpts] at hp
    rw [hmin, hmax]
    rcases List.mem_append.mp hp with hp | hp
    · exact ⟨le3_trans (foldl_vmin_le_init ps c.min) (hb p hp).1,
        le3_trans (hb p hp).2 (foldl_vmax_init_le ps c.max)⟩
    · exact ⟨foldl_vmin_le_mem ps c.min p hp, foldl_vmax_mem_le ps c.max p hp⟩
  · rw [hmin, hpts]
    refine ⟨?_, ?_, ?_⟩
    · rw [foldl_compwise_x]
      rcases foldl_min_choice (ps.map Vec3.x) c.min.x with hc | hc
      · rw [hc]
        rcases hmx with h1 | h1
        · exact Or.inl h1
        · exact Or.inr (by rw [List.map_append]; exact List.mem_append_left _ h1)
      · exact Or.inr (by rw [List.map_append]; exact List.mem_append_right _ hc)
    · rw [foldl_compwise_y]
      rcases foldl_min_choice (ps.map Vec3.y) c.min.y with hc | hc
      · rw [hc]
        rcases hmy with h1 | h1
        · exact Or.inl h1
        · exact Or.inr (by rw [List.map_append]; exact List.mem_append_left _ h1)
      · exact Or.inr (by rw [List.map_append]; exact List.mem_append_right _ hc)
    · rw [foldl_compwise_z]
      rcases foldl_min_choice (ps.map Vec3.z) c.min.z with hc | hc
      · rw [hc]
        rcases hmz with h1 | h1
        · exact Or.inl h1
        · exact Or.inr (by rw [List.map_append]; exact List.mem_append_left _ h1)
      · exact Or.inr (by rw [List.map_append]; exact List.mem_append_right _ hc)
  · rw [hmax, hpts]
    refine ⟨?_, ?_, ?_⟩
    · rw [foldl_compwise_x]
      rcases foldl_max_choice (ps.map Vec3.x) c.max.x with hc | hc
      · rw [hc]
        rcases hMx with h1 | h1
        · exact Or.inl h1
        · exact Or.inr (by rw [List.map_append]; exact List.mem_append_left _ h1)
      · exact Or.inr (by rw [List.map_append]; exact List.mem_append_right _ hc)
    · rw [foldl_compwise_y]
      rcases foldl_max_choice (ps.map Vec3.y) c.max.y with hc | hc
      · rw [hc]
        rcases hMy with h1 | h1
        · exact Or.inl h1
        · exact Or.inr (by rw [List.map_append]; exact List.mem_append_left _ h1)
      · exact Or.inr (by rw [List.map_append]; exact List.mem_append_right _ hc)
    · rw [foldl_compwise_z]
      rcases foldl_max_choice (ps.map Vec3.z) c.max.z with hc | hc
      · rw [hc]
        rcases hMz with h1 | h1
        · exact Or.inl h1
        · exact Or.inr (by rw [List.map_append]; exact List.mem_append_left _ h1)
      · exact Or.inr (by rw [List.map_append]; exact List.mem_append_right _ hc)
  · rw [hmin]
    have h1 := foldl_vmin_le_init ps c.min
    exact ⟨h1.1.trans hsb.1, h1.2.1.trans hsb.2.1, h1.2.2.trans hsb.2.2⟩
  · rw [hmax]
    have h1 := foldl_vmax_init_le ps c.max
    exact ⟨hSB.1.trans h1.1, hSB.2.1.trans h1.2.1, hSB.2.2.trans h1.2.2⟩

theorem addTri_good (c : CellFace) (ps : List Vec3) (h : PreGood c) (hps : ps ≠ []) :
    GoodFace (addTri c ps) := by
  refine ⟨addTri_pregood c ps h, ?_⟩
  have : (addTri c ps).points = c.points ++ ps := rfl
  rw [this]
  simp [hps]

theorem triPoints_ne_nil (tris : List ℚ) (i : Nat) : triPoints tris i ≠ [] := by
  simp [triPoints]

theorem collectAux_good (tris : List ℚ) :
    ∀ (l : List Int) (i : Nat) (m : Int → Option CellFace) (len : Nat),
      (∀ j c, m j = some c → GoodFace c) →
      ∀ j c, (collectAux tris i l (m, len)).1 j = some c → GoodFace c := by
  intro l
  induction l with
  | nil => intro i m len hm j c h; exact hm j c h
  | cons t rest ih =>
    intro i m len hm j c h
    simp only [collectAux] at h
    refine ih (i + 1) _ _ ?_ j c h
    intro j' c' h'
    by_cases hj : j' = t + 2
    · rw [if_pos hj] at h'
      have hc' : c' = addTri ((m (t + 2)).getD freshCell) (triPoints tris i) :=
        (Option.some.injEq _ _ ▸ h').symm
      rw [hc']
      refine addTri_good _ _ ?_ (triPoints_ne_nil tris i)
      cases hmc : m (t + 2) with
      | none => simpa [hmc] using freshCell_pregood
      | some c0 => simpa [hmc] using (hm (t + 2) c0 hmc).1
    · rw [if_neg hj] at h'
      exact hm j' c' h'

theorem collectAux_isSome (tris : List ℚ) :
    ∀ (l : List Int) (i : Nat) (m : Int → Option CellFace) (len : Nat) (j : Int),
      ((collectAux tris i l (m, len)).1 j).isSome ↔
        ((m j).isSome ∨ ∃ t ∈ l, t + 2 = j) := by
  intro l
  induction l with
  | nil => intro i m len j; simp [collectAux]
  | cons t rest ih =>
    intro i m len j
    simp only [collectAux]
    rw [ih]
    by_cases hj : j = t + 2
    · subst hj
      simp
    · have : ¬ (t + 2 = j) := fun hh => hj hh.symm
      simp only [if_neg hj, List.mem_cons]
      constructor
      · rintro (h | ⟨t', ht', he⟩)
        · exact Or.inl h
        · exact Or.inr ⟨t', Or.inr ht', he⟩
      · rintro (h | ⟨t', ht' | ht', he⟩)
        · exact Or.inl h
        · exact absurd (ht' ▸ he) this
        · exact Or.inr ⟨t', ht', he⟩

theorem collectAux_lenBound (tris : List ℚ) :
    ∀ (l : List Int) (i : Nat) (m : Int → Option CellFace) (len : Nat),
      (∀ j : Int, 0 ≤ j → (m j).isSome → j.toNat < len) →
      ∀ j : Int, 0 ≤ j → ((collectAux tris i l (m, len)).1 j).isSome →
        j.toNat < (collectAux tris i l (m, len)).2 := by
  intro l
  induction l with
  | nil => intro i m len hm j hj h; exact hm j hj h
  | cons t rest ih =>
    intro i m len hm j hj h
    simp only [collectAux] at h ⊢
    refine ih (i + 1) _ _ ?_ j hj h
    intro j' hj' h'
    by_cases hcase : j' = t + 2
    · subst hcase
      rw [if_pos hj']
      exact Nat.lt_of_lt_of_le (Nat.lt_succ_self _) (Nat.le_max_right _ _)
    · rw [if_neg hcase] at h'
      have hlt := hm j' hj' h'
      by_cases h0 : (0 : Int) ≤ t + 2
      · rw [if_pos h0]
        exact Nat.lt_of_lt_of_le hlt (Nat.le_max_left _ _)
      · rw [if_neg h0]
        exact hlt

theorem getD_map_range {α : Type} (g : Nat → α) (len k : Nat) (d : α) :
    ((List.range len).map g).getD k d = if k < len then g k else d := by
  by_cases h : k < len
  · rw [if_pos h]
    have hlen : k < ((List.range len).map g).length := by simpa using h
    rw [List.getD_eq_getElem _ _ hlen]
    simp
  · rw [if_neg h]
    apply List.getD_eq_default
    simpa using (by omega : len ≤ k)

theorem flatMap_congr {α β : Type} {l : List α} {f g : α → List β}
    (h : ∀ a ∈ l, f a = g a) : l.flatMap f = l.flatMap g := by
  induction l with
  | nil => rfl
  | cons a rest ih =>
    rw [List.flatMap_cons, List.flatMap_cons, h a (List.mem_cons_self a rest),
      ih (fun b hb => h b (List.mem_cons_of_mem a hb))]

/-- The group of cut-edge fragments carrying new-face id `g`, in their
original order (what the first `makeFace` loop accumulates at `faces[g]`). -/
def faceGroup (indices : List Int) (points : List ℚ) (g : Int) : List (Vec3 × Vec3) :=
  ((makeFaceFrags indices points).filter (fun e => e.1 = g)).map Prod.snd

/-- C1: the Host Compactor `floatNcompact` is a stable filter: for every
stride `N`, tag array and value array (of matching length), it returns
exactly the non-`-1` tags in their original relative order, and for each
kept tag the `N` consecutive floats of its record, copied from the value
array into the next free compacted slot. -/
theorem floatNcompact_stable_filter (N : Nat) (index : List Int) (val : List ℚ)
    (h : val.length = N * index.length) :
    (floatNcompact N index val).1 = index.filter (fun t => t ≠ -1) ∧
    (floatNcompact N index val).2 =
      (index.enum.filter (fun p => p.2 ≠ -1)).flatMap
        (fun p => (val.drop (p.1 * N)).take N) := by
  refine ⟨floatNcompactAux_indices N val index 0, ?_⟩
  rw [floatNcompact, floatNcompactAux_values]
  have henum : List.enumFrom 0 index = index.enum := rfl
  rw [henum]
  apply flatMap_congr
  intro p hp
  have hmem : p ∈ index.enum := List.mem_filter.mp hp |>.1
  have hlt : p.1 < index.length := by
    have := List.mem_enumFrom (by simpa using hmem)
    omega
  apply getD_range_eq_slice
  rw [h]
  have : p.1 + 1 ≤ index.length := hlt
  calc p.1 * N + N = (p.1 + 1) * N := by ring
    _ ≤ index.length * N := Nat.mul_le_mul_right N this
    _ = N * index.length := Nat.mul_comm _ _

theorem floatNcompact_stable_filter_witness :
    ([(1 : ℚ), 2, 3, 4, 5, 6].length = 2 * [(3 : Int), -1, 0].length) ∧
    ((floatNcompact 2 [3, -1, 0] [1, 2, 3, 4, 5, 6]).1 =
        ([3, -1, 0] : List Int).filter (fun t => t ≠ -1) ∧
      (floatNcompact 2 [3, -1, 0] [1, 2, 3, 4, 5, 6]).2 =
        (([3, -1, 0] : List Int).enum.filter (fun p => p.2 ≠ -1)).flatMap
          (fun p => (([1, 2, 3, 4, 5, 6] : List ℚ).drop (p.1 * 2)).take 2)) :=
  ⟨by decide, floatNcompact_stable_filter 2 [3, -1, 0] [1, 2, 3, 4, 5, 6] (by decide)⟩

/-- C2: after every compaction step (`outputToInput` on any read-back
arrays), no element of the resulting tag array `arrtricells` equals `-1`,
including the face-id entries the Face Sealer appends. -/
theorem outputToInput_no_sentinel (tc : List Int) (tv : List ℚ)
    (nc : List Int) (nv : List ℚ) :
    ∀ t ∈ (outputToInput tc tv nc nv).1, t ≠ -1 := by
  intro t ht
  unfold outputToInput at ht
  rcases List.mem_append.mp ht with h | h
  · rw [floatNcompact, floatNcompactAux_indices] at h
    have := List.mem_filter.mp h |>.2
    simpa using this
  · rcases List.mem_map.mp h with ⟨e, he, hfst⟩
    have := makeFaceEntries_fst_nonneg _ _ e he
    rw [← hfst]
    omega

theorem outputToInput_no_sentinel_witness :
    (3 : Int) ≠ -1 :=
  outputToInput_no_sentinel [3, -1] (List.replicate 24 0) [] [] 3 (by decide)

/-- C4: for every fragment list, the Face Sealer emits, per new-face id,
exactly one triangle per fragment of that id's group, each formed from the
group's shared centroid (the sum of all the group's endpoints scaled by
`0.5 / fragmentCount`) followed by the fragment's two points; ids with no
fragment produce no output. -/
theorem filter_keyed_flatMap_range {β : Type} (F : Nat → List (Int × β)) (n g : Nat)
    (hkey : ∀ a : Nat, ∀ e ∈ F a, e.1 = Int.ofNat a) :
    ((List.range n).flatMap F).filter (fun e => e.1 = (g : Int)) =
      if g < n then F g else [] := by
  induction n with
  | zero => simp
  | succ m ih =>
    rw [List.range_succ, List.flatMap_append, List.filter_append, ih]
    simp only [List.flatMap_cons, List.flatMap_nil, List.append_nil]
    by_cases hgm : g = m
    · subst hgm
      rw [if_neg (lt_irrefl g), List.nil_append, if_pos (Nat.lt_succ_self g)]
      apply List.filter_eq_self.mpr
      intro e he
      simp [hkey g e he]
    · have hfm : (F m).filter (fun e => e.1 = (g : Int)) = [] := by
        apply List.filter_eq_nil_iff.mpr
        intro e he
        simp only [hkey m e he, decide_eq_true_eq]
        intro hc
        exact hgm (by simpa using hc.symm)
      by_cases hlt : g < m
      · rw [if_pos hlt, if_pos (Nat.lt_succ_of_lt hlt), hfm, List.append_nil]
      · rw [if_neg hlt, List.nil_append, if_neg (by omega), hfm]

theorem makeFace_fan (indices : List Int) (points : List ℚ) (g : Nat) :
    (makeFaceEntries indices points).filter (fun e => e.1 = (g : Int)) =
      (faceGroup indices points (g : Int)).map
        (fun pq => ((g : Int),
          vecList (faceCentroid (faceGroup indices points (g : Int))) ++
            vecList pq.1 ++ vecList pq.2)) := by
  have hgrp : facesAt indices points g = faceGroup indices points (g : Int) :=
    buildFaces_apply (g : Int) (makeFaceFrags indices points)
  have hkey : ∀ a : Nat, ∀ e ∈ (if (facesAt indices points a).length = 0
      then ([] : List (Int × List ℚ))
      else (facesAt indices points a).map (fun pq =>
        ((Int.ofNat a : Int),
          vecList (faceCentroid (facesAt indices points a)) ++
            vecList pq.1 ++ vecList pq.2))),
      e.1 = Int.ofNat a := by
    intro a e he
    by_cases h0 : (facesAt indices points a).length = 0
    · rw [if_pos h0] at he
      exact absurd he (List.not_mem_nil e)
    · rw [if_neg h0] at he
      rcases List.mem_map.mp he with ⟨pq, _, hpq⟩
      rw [← hpq]
  unfold makeFaceEntries
  rw [filter_keyed_flatMap_range _ _ g hkey]
  by_cases hg : g < (buildFaces (makeFaceFrags indices points)).2
  · rw [if_pos hg]
    by_cases h0 : (facesAt indices points g).length = 0
    · rw [if_pos h0]
      have hnil : faceGroup indices points (g : Int) = [] := by
        rw [← hgrp]
        exact List.length_eq_zero.mp h0
      rw [hnil]
      rfl
    · rw [if_neg h0, hgrp]
      rfl
  · rw [if_neg hg]
    cases hfg : faceGroup indices points (g : Int) with
    | nil => rfl
    | cons pq rest =>
      exfalso
      have hne : ((makeFaceFrags indices points).filter
          (fun e => e.1 = (g : Int))) ≠ [] := by
        intro hnil
        rw [faceGroup, hnil] at hfg
        exact List.noConfusion hfg
      rcases List.exists_mem_of_ne_nil _ hne with ⟨e, he⟩
      have hin := List.mem_filter.mp he
      have hfst : e.1 = (g : Int) := by simpa using hin.2
      have hbound := buildFaces_len_bound (makeFaceFrags indices points) e hin.1
        (by rw [hfst]; exact Int.ofNat_nonneg g)
      rw [hfst] at hbound
      simp only [Int.toNat_ofNat] at hbound
      exact hg hbound

/-- C3: the invariant `len(tricells) = len(tris)/12` is broken by the code
whenever the Face Sealer emits at least one triangle: `makeFace` pushes only
9 floats (`centr`, `p1`, `p2`, without the vec4 padding every other part of
the pipeline uses) per sealed triangle. Evaluated at a step with no
surviving triangles and one cut-edge fragment: one tag but 9 floats. -/
theorem outputToInput_stride_mismatch :
    (outputToInput [-1, -1] (List.replicate 24 0) [0] (List.replicate 8 0)).1.length = 1 ∧
    (outputToInput [-1, -1] (List.replicate 24 0) [0] (List.replicate 8 0)).2.length = 9 ∧
    (outputToInput [-1, -1] (List.replicate 24 0) [0] (List.replicate 8 0)).2.length ≠
      12 * (outputToInput [-1, -1] (List.replicate 24 0) [0] (List.replicate 8 0)).1.length := by
  decide

/-- C6 counterexample: sealed faces are not "merged only at that final
point" — already the compaction step of a (possibly non-final) iteration
appends the Face Sealer's output to the tag array, as evaluated here on a
step with no survivors and one cut-edge fragment of new-face id 5. -/
theorem outputToInput_seals_midloop_cex :
    (outputToInput [-1, -1] (List.replicate 24 0) [5] (List.replicate 8 0)).1 ≠
      (floatNcompact 12 [-1, -1] (List.replicate 24 0)).1 := by
  decide

/-- C6 amended: the Face Sealer runs inside every compaction step
(`outputToInput`), on that step's own cut-edge fragments only, and its
sealed faces are merged into the surviving-triangle stream immediately:
the step's tag output is the non-`-1` survivor tags followed by the face
ids of the step's sealed triangles, and the float output is the compacted
survivor records followed by the sealed triangles' floats. -/
theorem outputToInput_seal_per_iteration (tc : List Int) (tv : List ℚ)
    (nc : List Int) (nv : List ℚ) :
    (outputToInput tc tv nc nv).1 =
      tc.filter (fun t => t ≠ -1) ++
        (makeFace (floatNcompact 8 nc nv).1 (floatNcompact 8 nc nv).2).1 ∧
    (outputToInput tc tv nc nv).2 =
      (floatNcompact 12 tc tv).2 ++
        (makeFace (floatNcompact 8 nc nv).1 (floatNcompact 8 nc nv).2).2 := by
  constructor
  · show (floatNcompact 12 tc tv).1 ++ _ = _
    rw [floatNcompact, floatNcompactAux_indices]
  · rfl

/-- C7: the count `doTransformCopyPerPlane` returns is
`(arrtris.length / 4) * cellCount`, i.e. `vertexCount * cellCount`, which
is three times the claimed `cellCount * inputTriangleCount`. Evaluated for
a single-triangle mesh (9 position floats, so `vertsAsFloat4` has 12
floats and `inputTriangleCount = 9 / 9 = 1`) and `cellCount = 2`: the code
returns 6, the claim predicts 2. -/
theorem doTransformCopyPerPlane_count_bug :
    doTransformCopyPerPlaneCount (vertsAsFloat4Length 9) 2 = 6 ∧
    doTransformCopyPerPlaneCount (vertsAsFloat4Length 9) 2 = 3 * (2 * (9 / 9)) ∧
    doTransformCopyPerPlaneCount (vertsAsFloat4Length 9) 2 ≠ 2 * (9 / 9) := by
  decide

/-- C9 counterexample: in the staged program the claim's sentinel conjunct
fails — after a dispatch over 1 input triangle every output tag slot is
unused (the stub `fracture` entry point writes nothing), yet each reads
back as the zero the buffer was initialized with, never as `-1`. -/
theorem dispatchFracture_sentinel_cex :
    (∀ t ∈ stagedTriTagsReadback 1, t = 0) ∧
    ¬ (∀ t ∈ stagedTriTagsReadback 1, t = -1) ∧
    (∀ t ∈ stagedFragTagsReadback 1, t = 0) ∧
    ¬ (∀ t ∈ stagedFragTagsReadback 1, t = -1) := by
  decide

/-- C9 amended: for a dispatch over `n` input triangles the buffers are
allocated at double capacity — `2n` 4-byte survivor tag slots, `2n`
12-float survivor records, `n` cut-edge tag slots and `2n × 4` floats of
cut-edge points, room for 2 output triangles and 1 cut-edge fragment per
input triangle — but the staged classifier entry point is an empty stub
that writes nothing, so every output slot keeps its zero initialization:
the read-back tag arrays hold `0` everywhere, never the `-1` sentinel. -/
theorem dispatchFracture_capacity_zeroed (n : Nat) :
    buftrioutcellsSize n = 4 * (2 * n) ∧
    buftrioutSize n = 4 * (12 * (2 * n)) ∧
    bufnewoutcellsSize n = 4 * n ∧
    bufnewoutSize n = 4 * (8 * n) ∧
    (stagedTriTagsReadback n).length = 2 * n ∧
    (stagedFragTagsReadback n).length = n ∧
    (∀ t ∈ stagedTriTagsReadback n, t = 0) ∧
    (∀ t ∈ stagedFragTagsReadback n, t = 0) := by
  refine ⟨?_, ?_, ?_, ?_, ?_, ?_, ?_, ?_⟩
  · unfold buftrioutcellsSize; ring
  · unfold buftrioutSize; ring
  · unfold bufnewoutcellsSize; ring
  · unfold bufnewoutSize; ring
  · unfold stagedTriTagsReadback
    simp [Nat.mul_comm]
  · unfold stagedFragTagsReadback
    simp
  · intro t ht
    exact List.eq_of_mem_replicate ht
  · intro t ht
    exact List.eq_of_mem_replicate ht

theorem option_isSome_map {α β : Type} (f : α → β) (o : Option α) :
    (o.map f).isSome = o.isSome := by
  cases o <;> rfl

/-- C8: the Fragment Assembler buckets every triangle at dense index
`tag + 2` (so the reserved void tag `-2` lands in bucket 0), and for any
tag `t ≥ -2` the output array has a materialized bucket at index `t + 2`
iff some triangle carries tag `t`; untouched buckets stay `none`. -/
theorem assemble_bucket_remap (tricells : List Int) (tris : List ℚ) (t : Int)
    (h : -2 ≤ t) :
    ((doFractureAssemble tricells tris).getD (t + 2).toNat none).isSome ↔
      t ∈ tricells := by
  have hofNat : (Int.ofNat (t + 2).toNat) = t + 2 := Int.toNat_of_nonneg (by omega)
  unfold doFractureAssemble
  rw [getD_map_range, hofNat]
  constructor
  · intro hs
    by_cases hlt : (t + 2).toNat < (collect tricells tris).2
    · rw [if_pos hlt] at hs
      rw [option_isSome_map] at hs
      have := (collectAux_isSome tris tricells 0 (fun _ => none) 0 (t + 2)).mp hs
      rcases this with hfalse | ⟨t', ht', he⟩
      · exact absurd hfalse (by simp)
      · have : t' = t := by omega
        exact this ▸ ht'
    · rw [if_neg hlt] at hs
      exact absurd hs (by simp)
  · intro hmem
    have hsome : ((collect tricells tris).1 (t + 2)).isSome :=
      (collectAux_isSome tris tricells 0 (fun _ => none) 0 (t + 2)).mpr
        (Or.inr ⟨t, hmem, rfl⟩)
    have hlt : (t + 2).toNat < (collect tricells tris).2 :=
      collectAux_lenBound tris tricells 0 (fun _ => none) 0
        (fun j _ hj => absurd hj (by simp)) (t + 2) (by omega) hsome
    rw [if_pos hlt, option_isSome_map]
    exact hsome

theorem assemble_bucket_remap_witness :
    ((doFractureAssemble [0] (List.replicate 12 0)).getD ((0 : Int) + 2).toNat none).isSome ↔
      (0 : Int) ∈ [(0 : Int)] :=
  assemble_bucket_remap [0] (List.replicate 12 0) 0 (by decide)

theorem add3_sub3_cancel (q pos : Vec3) : add3 (sub3 q pos) pos = q := by
  cases q; cases pos
  simp [add3, sub3]

theorem recenter_lower (mn mx : Vec3) :
    sub3 (mult3c (add3 mn mx) (1 / 2)) (mult3c (sub3 mx mn) (1 / 2)) = mn := by
  cases mn; cases mx
  simp only [add3, sub3, mult3c, Vec3.mk.injEq]
  refine ⟨by ring, by ring, by ring⟩

theorem recenter_upper (mn mx : Vec3) :
    add3 (mult3c (add3 mn mx) (1 / 2)) (mult3c (sub3 mx mn) (1 / 2)) = mx := by
  cases mn; cases mx
  simp only [add3, sub3, mult3c, Vec3.mk.injEq]
  refine ⟨by ring, by ring, by ring⟩

/-- C5: for every bucket the assembler materializes, the recenter phase set
`position = (min+max)/2` and `size = max−min` over the bucket's collected
bounds and rewrote every stored point `p` to `p − position`; consequently
every stored point, translated back by `position`, lies inside the box
from `position − size/2` to `position + size/2`. -/
theorem assemble_recenter_bounds (tricells : List Int) (tris : List ℚ) (j : Nat)
    (c : CellFace) (h : (doFractureAssemble tricells tris).getD j none = some c) :
    ∃ c0 pos sz,
      (collect tricells tris).1 (Int.ofNat j) = some c0 ∧
      c.position = some pos ∧ c.size = some sz ∧
      pos = mult3c (add3 c0.min c0.max) (1 / 2) ∧
      sz = sub3 c0.max c0.min ∧
      c.points = c0.points.map (fun p => sub3 p pos) ∧
      ∀ p ∈ c.points,
        le3 (sub3 pos (mult3c sz (1 / 2))) (add3 p pos) ∧
        le3 (add3 p pos) (add3 pos (mult3c sz (1 / 2))) := by
  unfold doFractureAssemble at h
  rw [getD_map_range] at h
  by_cases hj : j < (collect tricells tris).2
  case neg =>
    rw [if_neg hj] at h
    exact absurd h (by simp)
  rw [if_pos hj] at h
  rcases Option.map_eq_some'.mp h with ⟨c0, hc0, hrec⟩
  have hgood : GoodFace c0 :=
    collectAux_good tris tricells 0 (fun _ => none) 0
      (fun j c hc => absurd hc (by simp)) _ c0 hc0
  refine ⟨c0, mult3c (add3 c0.min c0.max) (1 / 2), sub3 c0.max c0.min, hc0,
    ?_, ?_, rfl, rfl, ?_, ?_⟩
  · rw [← hrec]; rfl
  · rw [← hrec]; rfl
  · rw [← hrec]; rfl
  · intro p hp
    have hpts : c.points =
        c0.points.map (fun q => sub3 q (mult3c (add3 c0.min c0.max) (1 / 2))) := by
      rw [← hrec]; rfl
    rw [hpts] at hp
    rcases List.mem_map.mp hp with ⟨q, hq, rfl⟩
    rw [add3_sub3_cancel q _, recenter_lower, recenter_upper]
    exact hgood.1.1 q hq

/-- The recentered output bucket of a one-triangle, all-zero input; used to
instantiate the recentering theorem at a concrete run. -/
def witnessCellR : CellFace :=
  recenterFace (addTri freshCell (triPoints (List.replicate 12 0) 0))

theorem assemble_recenter_bounds_witness :
    ∃ c0 pos sz,
      (collect [0] (List.replicate 12 0)).1 (Int.ofNat 2) = some c0 ∧
      witnessCellR.position = some pos ∧ witnessCellR.size = some sz ∧
      pos = mult3c (add3 c0.min c0.max) (1 / 2) ∧
      sz = sub3 c0.max c0.min ∧
      witnessCellR.points = c0.points.map (fun p => sub3 p pos) ∧
      ∀ p ∈ witnessCellR.points,
        le3 (sub3 pos (mult3c sz (1 / 2))) (add3 p pos) ∧
        le3 (add3 p pos) (add3 pos (mult3c sz (1 / 2))) :=
  assemble_recenter_bounds [0] (List.replicate 12 0) 2 witnessCellR rfl

/-- The collect-phase bucket of a one-triangle input whose first vertex has
`x = 20000`: its computed bounds are attained by bucket points (a tight
bounding box) even though a coordinate lies outside `[-10000, 10000]`. -/
def cexCell : CellFace :=
  ⟨[⟨20000, 0, 0⟩, ⟨0, 0, 0⟩, ⟨0, 0, 0⟩], [(0, 1, 2)],
    ⟨0, 0, 0⟩, ⟨20000, 0, 0⟩, none, none⟩

/-- C10 counterexample: the computed box can be the tight axis-aligned
bounding box even when a coordinate lies outside `[-10000, 10000]`,
refuting the "tight only when all coordinates lie within" direction:
here both bounds are attained by bucket points while one point has
`x = 20000`. -/
theorem collect_tight_out_of_range_cex :
    (collect [0] [20000, 0, 0, 0, 0, 0, 0, 0, 0, 0, 0, 0]).1 2 = some cexCell ∧
    (∀ p ∈ cexCell.points, le3 cexCell.min p ∧ le3 p cexCell.max) ∧
    cexCell.min ∈ cexCell.points ∧ cexCell.max ∈ cexCell.points ∧
    ¬ (∀ p ∈ cexCell.points, -10000 ≤ p.x ∧ p.x ≤ 10000 ∧ -10000 ≤ p.y ∧
        p.y ≤ 10000 ∧ -10000 ≤ p.z ∧ p.z ≤ 10000) := by
  decide

/-- C10 amended: for every non-empty bucket, the computed `min` is the
componentwise minimum of the seed `10000` and the bucket's points (it is a
lower bound of both and each component is the seed value or attained), and
dually for `max` with seed `-10000`; the computed box therefore always
contains every point of the bucket, and whenever all coordinates lie
within `[-10000, 10000]` the box is the tight axis-aligned bounding box
(every bound component is attained by a bucket point). -/
theorem collect_seeded_bounds (tricells : List Int) (tris : List ℚ) (j : Int)
    (c : CellFace) (h : (collect tricells tris).1 j = some c) :
    (∀ p ∈ c.points, le3 c.min p ∧ le3 p c.max) ∧
    (c.min.x ≤ 10000 ∧ c.min.y ≤ 10000 ∧ c.min.z ≤ 10000) ∧
    (-10000 ≤ c.max.x ∧ -10000 ≤ c.max.y ∧ -10000 ≤ c.max.z) ∧
    ((c.min.x = 10000 ∨ c.min.x ∈ c.points.map Vec3.x) ∧
     (c.min.y = 10000 ∨ c.min.y ∈ c.points.map Vec3.y) ∧
     (c.min.z = 10000 ∨ c.min.z ∈ c.points.map Vec3.z)) ∧
    ((c.max.x = -10000 ∨ c.max.x ∈ c.points.map Vec3.x) ∧
     (c.max.y = -10000 ∨ c.max.y ∈ c.points.map Vec3.y) ∧
     (c.max.z = -10000 ∨ c.max.z ∈ c.points.map Vec3.z)) ∧
    ((∀ p ∈ c.points, -10000 ≤ p.x ∧ p.x ≤ 10000 ∧ -10000 ≤ p.y ∧ p.y ≤ 10000 ∧
        -10000 ≤ p.z ∧ p.z ≤ 10000) →
      (c.min.x ∈ c.points.map Vec3.x ∧ c.min.y ∈ c.points.map Vec3.y ∧
       c.min.z ∈ c.points.map Vec3.z ∧ c.max.x ∈ c.points.map Vec3.x ∧
       c.max.y ∈ c.points.map Vec3.y ∧ c.max.z ∈ c.points.map Vec3.z)) := by
  have hgood : GoodFace c :=
    collectAux_good tris tricells 0 (fun _ => none) 0
      (fun j c hc => absurd hc (by simp)) j c h
  obtain ⟨⟨hb, hminat, hmaxat, hsb, hSB⟩, hne⟩ := hgood
  refine ⟨hb, hsb, hSB, hminat, hmaxat, ?_⟩
  intro hrange
  rcases List.exists_mem_of_ne_nil _ hne with ⟨p0, hp0⟩
  refine ⟨?_, ?_, ?_, ?_, ?_, ?_⟩
  · rcases hminat.1 with heq | hin
    · have h1 := (hb p0 hp0).1.1
      have h3 : c.min.x = p0.x := le_antisymm h1 (by rw [heq]; exact (hrange p0 hp0).2.1)
      rw [h3]; exact List.mem_map_of_mem _ hp0
    · exact hin
  · rcases hminat.2.1 with heq | hin
    · have h1 := (hb p0 hp0).1.2.1
      have h3 : c.min.y = p0.y :=
        le_antisymm h1 (by rw [heq]; exact (hrange p0 hp0).2.2.2.1)
      rw [h3]; exact List.mem_map_of_mem _ hp0
    · exact hin
  · rcases hminat.2.2 with heq | hin
    · have h1 := (hb p0 hp0).1.2.2
      have h3 : c.min.z = p0.z :=
        le_antisymm h1 (by rw [heq]; exact (hrange p0 hp0).2.2.2.2.2)
      rw [h3]; exact List.mem_map_of_mem _ hp0
    · exact hin
  · rcases hmaxat.1 with heq | hin
    · have h1 := (hb p0 hp0).2.1
      have h3 : c.max.x = p0.x := le_antisymm (by rw [heq]; exact (hrange p0 hp0).1) h1
      rw [h3]; exact List.mem_map_of_mem _ hp0
    · exact hin
  · rcases hmaxat.2.1 with heq | hin
    · have h1 := (hb p0 hp0).2.2.1
      have h3 : c.max.y = p0.y :=
        le_antisymm (by rw [heq]; exact (hrange p0 hp0).2.2.1) h1
      rw [h3]; exact List.mem_map_of_mem _ hp0
    · exact hin
  · rcases hmaxat.2.2 with heq | hin
    · have h1 := (hb p0 hp0).2.2.2
      have h3 : c.max.z = p0.z :=
        le_antisymm (by rw [heq]; exact (hrange p0 hp0).2.2.2.2.1) h1
      rw [h3]; exact List.mem_map_of_mem _ hp0
    · exact hin

/-- The collect-phase bucket of a one-triangle, all-zero input; used to
instantiate the seeded-bounds theorem at a concrete run. -/
def witnessCell : CellFace :=
  addTri freshCell (triPoints (List.replicate 12 0) 0)

theorem collect_seeded_bounds_witness :
    (∀ p ∈ witnessCell.points, le3 witnessCell.min p ∧ le3 p witnessCell.max) ∧
    (witnessCell.min.x ≤ 10000 ∧ witnessCell.min.y ≤ 10000 ∧ witnessCell.min.z ≤ 10000) ∧
    (-10000 ≤ witnessCell.max.x ∧ -10000 ≤ witnessCell.max.y ∧ -10000 ≤ witnessCell.max.z) ∧
    ((witnessCell.min.x = 10000 ∨ witnessCell.min.x ∈ witnessCell.points.map Vec3.x) ∧
     (witnessCell.min.y = 10000 ∨ witnessCell.min.y ∈ witnessCell.points.map Vec3.y) ∧
     (witnessCell.min.z = 10000 ∨ witnessCell.min.z ∈ witnessCell.points.map Vec3.z)) ∧
    ((witnessCell.max.x = -10000 ∨ witnessCell.max.x ∈ witnessCell.points.map Vec3.x) ∧
     (witnessCell.max.y = -10000 ∨ witnessCell.max.y ∈ witnessCell.points.map Vec3.y) ∧
     (witnessCell.max.z = -10000 ∨ witnessCell.max.z ∈ witnessCell.points.map Vec3.z)) ∧
    ((∀ p ∈ witnessCell.points, -10000 ≤ p.x ∧ p.x ≤ 10000 ∧ -10000 ≤ p.y ∧
        p.y ≤ 10000 ∧ -10000 ≤ p.z ∧ p.z ≤ 10000) →
      (witnessCell.min.x ∈ witnessCell.points.map Vec3.x ∧
       witnessCell.min.y ∈ witnessCell.points.map Vec3.y ∧
       witnessCell.min.z ∈ witnessCell.points.map Vec3.z ∧
       witnessCell.max.x ∈ witnessCell.points.map Vec3.x ∧
       witnessCell.max.y ∈ witnessCell.points.map Vec3.y ∧
       witnessCell.max.z ∈ witnessCell.points.map Vec3.z)) :=
  collect_seeded_bounds [0] (List.replicate 12 0) 2 witnessCell rfl

end Fracture
